import Mathlib

/-!
Verification development for a single-page chat UI with `@[Title]` knowledge-base
mentions (shallow embedding of `src/app/page.tsx`).

Modelling conventions:
* JS strings are Lean `String` (a structure over `List Char`); JS string indices
  are character indices into `String.data`.
* `Date.now()` is an explicit `now : Nat` parameter wherever the code calls it.
* `Math.random()`-driven template selection is an explicit `pick : Nat` parameter.
* The `-1` sentinel in `mentionIndex` is `Option Nat` with `none` for `-1`.
* The JS falsy test `!s.trim()` on a string is the test `s.trim = ""`.
* The 1-2 s artificial latency is dropped: `generateResponse` is a total function
  (the promise always resolves and never rejects).
-/

namespace WebRag

/-! ## JS string primitives, modelled over `List Char`
(the position-based core `String` functions do not reduce in the kernel). -/

/-- JS `String.prototype.trim`: strip whitespace from both ends. -/
def trimStr (s : String) : String :=
  ((s.data.dropWhile Char.isWhitespace).reverse.dropWhile Char.isWhitespace).reverse.asString

/-- JS `String.prototype.toLowerCase` (ASCII case folding). -/
def toLowerStr (s : String) : String :=
  (s.data.map Char.toLower).asString

/-- JS `String.prototype.split` with a one-character separator:
`"".split(sep)` is `[""]`, and separators delimit (possibly empty) fields. -/
def splitChars (sep : Char) : List Char → List (List Char)
  | [] => [[]]
  | c :: rest =>
    let r := splitChars sep rest
    if c = sep then [] :: r
    else
      match r with
      | [] => [[c]]
      | h :: t => (c :: h) :: t

/-- The KnowledgeBase record of the source: id, title, content, tags. -/
structure KnowledgeBase where
  id : String
  title : String
  content : String
  tags : List String
deriving DecidableEq, Repr, Inhabited

/-- Message roles: user, assistant, system. -/
inductive Role where
  | user
  | assistant
  | system
deriving DecidableEq, Repr

/-- The Message record of the source. `usedContext` is the optional list of
knowledge-base ids the assistant reply drew on. -/
structure Message where
  id : String
  role : Role
  content : String
  timestamp : Nat
  usedContext : Option (List String) := none
deriving DecidableEq, Repr

/-! ## Mention scanning (the regex `/@\[([^\]]+)\]/g`) -/

/-- Split a character list at the first `]`: the run of non-`]` characters before
it, and — when a `]` exists — the characters after it.  This is the regex
fragment `([^\]]+)\]`: the greedy character-class run followed by the closing
bracket (greediness is trivial here because `]` is excluded from the class). -/
def splitAtRBracket : List Char → List Char × Option (List Char)
  | [] => ([], none)
  | c :: rest =>
    if c = ']' then ([], some rest)
    else
      let p := splitAtRBracket rest
      (c :: p.1, p.2)

/-- The global regex scan of `text.matchAll(/@\[([^\]]+)\]/g)`, collecting the
captured titles left to right.  A match needs `@`, `[`, a nonempty run of
non-`]` characters, then `]`; scanning resumes after the match.  On a failed
attempt the scan advances one position, which is what recursing on `rest`
models (no later match can start inside the skipped `@`).  `fuel` only drives
structural termination: each step consumes at least one character, so
`fuel = l.length` (as used by `mentionTitles`) never runs out. -/
def scanMentionsAux : Nat → List Char → List String
  | 0, _ => []
  | _ + 1, [] => []
  | fuel + 1, '@' :: rest =>
    match rest with
    | '[' :: rest2 =>
      match splitAtRBracket rest2 with
      | (run, some tail) =>
        if run.isEmpty then scanMentionsAux fuel rest
        else run.asString :: scanMentionsAux fuel tail
      | (_, none) => scanMentionsAux fuel rest
    | _ => scanMentionsAux fuel rest
  | fuel + 1, _ :: rest => scanMentionsAux fuel rest

/-- The captured titles of all well-formed `@[Title]` tokens of a text, in
scan order. -/
def mentionTitles (text : String) : List String :=
  scanMentionsAux text.data.length text.data

/-! ## Response generation -/

/-- The commit-resolution filter inside `generateResponse`:
`knowledgeBases.filter(kb => mentionedTitles.includes(kb.title))`. -/
def commitUsedKBs (userMessage : String) (kbs : List KnowledgeBase) :
    List KnowledgeBase :=
  kbs.filter (fun kb => (mentionTitles userMessage).contains kb.title)

/-- The closed set of canned assistant sentences. -/
def MOCK_AI_RESPONSES : List String :=
  [ "That\x27s an interesting point. Tell me more.",
    "I can certainly help with that based on the context provided.",
    "Here\x27s a summary of what I found in your knowledge base.",
    "Could you clarify exactly what you mean?",
    "Let me analyze that information for you." ]

/-- The payload a resolved response generation carries: reply text plus the ids
of the matched knowledge bases. -/
structure GenResult where
  text : String
  usedContext : List String
deriving DecidableEq, Repr

/-- `generateResponse`, with the random template index made explicit as `pick`
(the code draws `Math.floor(Math.random() * MOCK_AI_RESPONSES.length)`) and the
cosmetic latency dropped. -/
def generateResponse (userMessage : String) (knowledgeBases : List KnowledgeBase)
    (pick : Nat) : GenResult :=
  let usedKBs := commitUsedKBs userMessage knowledgeBases
  if usedKBs.length > 0 then
    let contextSummary :=
      String.intercalate " and " (usedKBs.map (fun kb => "\"" ++ kb.title ++ "\""))
    { text := "I\x27ve analyzed the content from " ++ contextSummary ++
        ". \n\nBased on that knowledge: " ++
        (MOCK_AI_RESPONSES.getD (pick % MOCK_AI_RESPONSES.length) "") ++
        "\n\n(Context used: " ++ ((usedKBs.headD default).content.data.take 50).asString ++
        "...)"
      usedContext := usedKBs.map (fun kb => kb.id) }
  else
    { text := "I received your message: \"" ++ userMessage ++
        "\". I didn\x27t see any specific knowledge base tagged, so I\x27m answering with my general training."
      usedContext := usedKBs.map (fun kb => kb.id) }

/-! ## Knowledge Store -/

/-- The three seeded knowledge bases of the initial state. -/
def initialKBs : List KnowledgeBase :=
  [ { id := "1", title := "Product Docs",
      content := "The product allows users to chat with documents. It supports markdown and exports.",
      tags := ["docs", "manual"] },
    { id := "2", title := "Marketing Copy",
      content := "Our brand voice is friendly, professional, and concise. We use blue and white as primary colors.",
      tags := ["brand", "marketing"] },
    { id := "3", title := "Q3 Financials",
      content := "Revenue up 20% QoQ. Operating expenses stable. Key growth in enterprise sector.",
      tags := ["finance", "private"] } ]

/-- `handleCreateKB`: appends the new entry to the store. -/
def handleCreateKB (store : List KnowledgeBase) (kb : KnowledgeBase) :
    List KnowledgeBase :=
  store ++ [kb]

/-- `handleDeleteKB`: `prev.filter(k => k.id !== id)`. -/
def handleDeleteKB (store : List KnowledgeBase) (id : String) :
    List KnowledgeBase :=
  store.filter (fun k => k.id != id)

/-- The tag parsing of the creation form:
`newTags.split(",").map(t => t.trim()).filter(Boolean)` (the empty string is the
only falsy string). -/
def parseTags (raw : String) : List String :=
  (((splitChars ',' raw.data).map (fun l => trimStr l.asString)).filter
    (fun t => !(t == "")))

/-- `handleSubmit` of the creation form: a silent no-op when title or content is
empty after trimming, otherwise creates an entry whose id is
`Date.now().toString()` (here: `toString now`) and whose title and content are
stored exactly as entered (untrimmed). -/
def handleSubmit (store : List KnowledgeBase) (now : Nat)
    (newTitle newContent newTags : String) : List KnowledgeBase :=
  if trimStr newTitle = "" ∨ trimStr newContent = "" then store
  else
    handleCreateKB store
      { id := toString now, title := newTitle, content := newContent,
        tags := parseTags newTags }

/-- One mutation of the Knowledge Store: a form submission (with the ambient
clock value it reads) or a delete. -/
inductive KBStep : List KnowledgeBase → List KnowledgeBase → Prop
  | create (s : List KnowledgeBase) (now : Nat) (title content tags : String) :
      KBStep s (handleSubmit s now title content tags)
  | delete (s : List KnowledgeBase) (id : String) :
      KBStep s (handleDeleteKB s id)

/-- States of the Knowledge Store reachable from the seeded initial store by
create and delete operations, with an unconstrained clock. -/
inductive Reachable : List KnowledgeBase → Prop
  | init : Reachable initialKBs
  | step {s s' : List KnowledgeBase} : Reachable s → KBStep s s' → Reachable s'

/-- Reachability under the freshness assumption the code silently relies on:
every create's clock string differs from all ids currently in the store. -/
inductive FreshReachable : List KnowledgeBase → Prop
  | init : FreshReachable initialKBs
  | create {s : List KnowledgeBase} (now : Nat) (title content tags : String) :
      FreshReachable s → toString now ∉ s.map (fun kb => kb.id) →
      FreshReachable (handleSubmit s now title content tags)
  | delete {s : List KnowledgeBase} (id : String) :
      FreshReachable s → FreshReachable (handleDeleteKB s id)

/-! ## Composer: mention query detection, suggestions, selection, send guards -/

/-- The characters after the last `@` of a character list, when one exists
(`input.lastIndexOf("@")` plus `input.slice(lastAtPos + 1)`). -/
def textAfterLastAt : List Char → Option (List Char)
  | [] => none
  | c :: rest =>
    match textAfterLastAt rest with
    | some s => some s
    | none => if c = '@' then some rest else none

/-- The mention-detection of `handleInputChange`: the text after the last `@`
is the active query provided it contains no space; otherwise no query is
active. -/
def mentionQueryOf (input : String) : Option String :=
  match textAfterLastAt input.data with
  | some s => if ' ' ∈ s then none else some s.asString
  | none => none

/-- Whether `needle` is a prefix of `hay` (character lists). -/
def strStarts : List Char → List Char → Bool
  | [], _ => true
  | _ :: _, [] => false
  | a :: as, b :: bs => a == b && strStarts as bs

/-- Whether `needle` occurs contiguously inside `hay`: JS
`hay.includes(needle)`. -/
def strOccurs (needle : List Char) : List Char → Bool
  | [] => needle.isEmpty
  | c :: rest => strStarts needle (c :: rest) || strOccurs needle rest

/-- The live-suggestion list: empty when no query is active, otherwise
`knowledgeBases.filter(kb => kb.title.toLowerCase().includes(q.toLowerCase()))`. -/
def filteredKBs (mentionQuery : Option String) (kbs : List KnowledgeBase) :
    List KnowledgeBase :=
  match mentionQuery with
  | none => []
  | some q => kbs.filter (fun kb => strOccurs (toLowerStr q).data (toLowerStr kb.title).data)

/-- The composer-relevant state of the ChatInterface component. -/
structure ChatState where
  input : String
  isTyping : Bool
  mentionQuery : Option String
  mentionIndex : Option Nat
  knowledgeBases : List KnowledgeBase
  messages : List Message

/-- `handleSelectKB`: when a mention is active, rewrite the input to
`before ++ "@[" ++ title ++ "] " ++ after` where `before` is the text before the
triggering `@` and `after` the text after the partial query token, and clear the
mention state.  Knowledge bases and messages are untouched. -/
def handleSelectKB (st : ChatState) (kb : KnowledgeBase) : ChatState :=
  match st.mentionIndex with
  | none => st
  | some i =>
    let q := st.mentionQuery.getD ""
    let before := st.input.data.take i
    let after := st.input.data.drop (i + q.length + 1)
    { st with
      input := (before ++ ("@[" ++ kb.title ++ "] ").data ++ after).asString
      mentionQuery := none
      mentionIndex := none }

/-- The `disabled` attribute of the send button: `!input.trim() || isTyping`. -/
def sendButtonDisabled (input : String) (isTyping : Bool) : Bool :=
  trimStr input == "" || isTyping

/-- The only guard inside `handleSend`: it proceeds iff the trimmed input is
nonempty.  The pending flag is in scope in the component but not consulted. -/
def handleSendFires (input : String) (_isTyping : Bool) : Bool :=
  !(trimStr input == "")

/-- Whether an Enter keypress starts a send: `handleKeyDown` forwards to
`handleSend` exactly when Shift is up and no mention query is active. -/
def keyDownStartsSend (shiftKey : Bool) (mentionQuery : Option String)
    (input : String) (isTyping : Bool) : Bool :=
  !shiftKey && mentionQuery.isNone && handleSendFires input isTyping

/-- Whether a click on the send button starts a send: the button must be
enabled, and then `handleSend` runs. -/
def sendButtonStartsSend (input : String) (isTyping : Bool) : Bool :=
  !(sendButtonDisabled input isTyping) && handleSendFires input isTyping

/-! ## Helper lemmas -/

/-- `List.asString` is the structure constructor, so its data is the list. -/
theorem asString_data (l : List Char) : (List.asString l).data = l := rfl

/-- `List.contains` is membership (lawful `BEq` on `String`). -/
theorem contains_iff_mem {l : List String} {a : String} :
    l.contains a = true ↔ a ∈ l := by
  simp [List.contains, List.elem_iff]

/-- `strStarts` decides the prefix relation. -/
theorem strStarts_iff (needle : List Char) : ∀ hay : List Char,
    (strStarts needle hay = true ↔ ∃ t, hay = needle ++ t) := by
  induction needle with
  | nil => intro hay; simp [strStarts]
  | cons a as ih =>
    intro hay
    cases hay with
    | nil =>
      simp only [strStarts, List.cons_append]
      constructor
      · intro h; cases h
      · rintro ⟨t, h⟩; cases h
    | cons b bs =>
      simp only [strStarts, Bool.and_eq_true, beq_iff_eq, ih, List.cons_append,
        List.cons.injEq]
      constructor
      · rintro ⟨rfl, t, rfl⟩; exact ⟨t, rfl, rfl⟩
      · rintro ⟨t, rfl, rfl⟩; exact ⟨rfl, t, rfl⟩

/-- `strOccurs` decides contiguous-substring occurrence (JS `includes`). -/
theorem strOccurs_iff (needle : List Char) : ∀ hay : List Char,
    (strOccurs needle hay = true ↔ ∃ s t, hay = s ++ needle ++ t) := by
  intro hay
  induction hay with
  | nil =>
    simp only [strOccurs, List.isEmpty_iff]
    constructor
    · rintro rfl; exact ⟨[], [], rfl⟩
    · rintro ⟨s, t, h⟩
      rcases List.append_eq_nil.mp h.symm with ⟨h1, h2⟩
      exact (List.append_eq_nil.mp h1).2
  | cons c rest ih =>
    simp only [strOccurs, Bool.or_eq_true, strStarts_iff, ih]
    constructor
    · rintro (⟨t, h⟩ | ⟨s, t, h⟩)
      · exact ⟨[], t, by simp [h]⟩
      · exact ⟨c :: s, t, by simp [h]⟩
    · rintro ⟨s, t, h⟩
      cases s with
      | nil => exact Or.inl ⟨t, by simpa using h⟩
      | cons x s2 =>
        rw [List.cons_append, List.cons_append, List.cons.injEq] at h
        exact Or.inr ⟨s2, t, h.2⟩

/-- The empty needle occurs in every haystack. -/
theorem strOccurs_nil (hay : List Char) : strOccurs [] hay = true := by
  cases hay <;> simp [strOccurs, strStarts]

/-- Without an `@`, no suffix after the last `@` exists. -/
theorem textAfterLastAt_eq_none : ∀ {l : List Char}, '@' ∉ l →
    textAfterLastAt l = none := by
  intro l
  induction l with
  | nil => intro _; rfl
  | cons c rest ih =>
    intro h
    rw [List.mem_cons, not_or] at h
    have hc : ¬ c = '@' := fun hh => h.1 hh.symm
    simp [textAfterLastAt, ih h.2, hc]

/-- The suffix after the last `@`: appending `@ :: r` with `@`-free `r` yields `r`. -/
theorem textAfterLastAt_append (l : List Char) {r : List Char} (h : '@' ∉ r) :
    textAfterLastAt (l ++ '@' :: r) = some r := by
  induction l with
  | nil => simp [textAfterLastAt, textAfterLastAt_eq_none h]
  | cons c rest ih => simp [textAfterLastAt, ih]

/-- The data of the one-character string `"@"`. -/
theorem at_data : ("@" : String).data = ['@'] := rfl

/-- The mention-detection heuristic on a decomposed input: the text after the
last `@`, when it is `@`-free and space-free, is the active query. -/
theorem mentionQueryOf_append (b q : String) (hq : '@' ∉ q.data)
    (hs : ' ' ∉ q.data) : mentionQueryOf (b ++ "@" ++ q) = some q := by
  have hdata : (b ++ "@" ++ q).data = b.data ++ '@' :: q.data := by
    simp [String.data_append, at_data]
  rw [mentionQueryOf, hdata, textAfterLastAt_append b.data hq]
  simp only [hs, if_false, if_neg hs]
  exact congrArg some (String.ext (asString_data q.data))

/-! ## Claims -/

/-- C6: creating an entry whose title or content is empty or whitespace-only
after trimming is a silent no-op on the Knowledge Store. -/
theorem create_empty_noop (store : List KnowledgeBase) (now : Nat)
    (title content tags : String)
    (h : trimStr title = "" ∨ trimStr content = "") :
    handleSubmit store now title content tags = store := by
  unfold handleSubmit
  exact if_pos h

/-- Witness for C6: `create("", "body", [])` leaves the store unchanged. -/
theorem create_empty_noop_witness :
    handleSubmit initialKBs 5 "" "body" "" = initialKBs :=
  create_empty_noop initialKBs 5 "" "body" "" (Or.inl (by decide))

/-- C7: delete removes exactly the entry with the matching id (preserving the
order of the rest) when one exists, and is an error-free no-op otherwise. -/
theorem delete_correct (store : List KnowledgeBase) (id : String) :
    ((∀ e ∈ store, e.id ≠ id) → handleDeleteKB store id = store) ∧
    ((store.map (fun kb => kb.id)).Nodup →
      ∀ l₁ e l₂, store = l₁ ++ e :: l₂ → e.id = id →
        handleDeleteKB store id = l₁ ++ l₂) := by
  constructor
  · intro h
    apply List.filter_eq_self.mpr
    intro e he
    simpa [bne_iff_ne] using h e he
  · rintro hnd l₁ e l₂ rfl rfl
    rw [List.map_append, List.map_cons, List.nodup_append] at hnd
    obtain ⟨h₁, h₂, hdisj⟩ := hnd
    have he₂ : e.id ∉ l₂.map (fun kb => kb.id) := (List.nodup_cons.mp h₂).1
    have he₁ : e.id ∉ l₁.map (fun kb => kb.id) :=
      fun hmem => hdisj hmem (List.mem_cons_self _ _)
    rw [handleDeleteKB, List.filter_append, List.filter_cons]
    simp only [bne_self_eq_false, Bool.false_eq_true, if_false]
    congr 1
    · apply List.filter_eq_self.mpr
      intro x hx
      have hne : x.id ≠ e.id := fun hh => he₁ (hh ▸ List.mem_map_of_mem _ hx)
      simpa [bne_iff_ne] using hne
    · apply List.filter_eq_self.mpr
      intro x hx
      have hne : x.id ≠ e.id := fun hh => he₂ (hh ▸ List.mem_map_of_mem _ hx)
      simpa [bne_iff_ne] using hne

/-- Witness for C7: with ids 1 and 2, deleting "99" is a no-op and deleting "2"
removes exactly the second entry. -/
theorem delete_correct_witness :
    handleDeleteKB [{ id := "1", title := "a", content := "b", tags := [] },
        { id := "2", title := "c", content := "d", tags := [] }] "99"
      = [{ id := "1", title := "a", content := "b", tags := [] },
         { id := "2", title := "c", content := "d", tags := [] }] ∧
    handleDeleteKB [{ id := "1", title := "a", content := "b", tags := [] },
        { id := "2", title := "c", content := "d", tags := [] }] "2"
      = [{ id := "1", title := "a", content := "b", tags := [] }] := by
  constructor
  · exact (delete_correct _ "99").1 (by decide)
  · have h := (delete_correct
      [{ id := "1", title := "a", content := "b", tags := [] },
       { id := "2", title := "c", content := "d", tags := [] }] "2").2 (by decide)
      [{ id := "1", title := "a", content := "b", tags := [] }]
      { id := "2", title := "c", content := "d", tags := [] } [] rfl rfl
    simpa using h

/-- C1: commit resolution returns exactly the store entries whose title equals
some captured `@[Title]` token title — unmatched tokens are ignored, the result
is a store-order subsequence (hence ordered by store, not mention, order), and
it carries no duplicate ids as long as the store itself has none (each store
entry appears at most once however often its title is mentioned). -/
theorem commit_resolution_correct (msg : String) (kbs : List KnowledgeBase) :
    (commitUsedKBs msg kbs).Sublist kbs ∧
    (∀ kb, kb ∈ commitUsedKBs msg kbs ↔ kb ∈ kbs ∧ kb.title ∈ mentionTitles msg) ∧
    ((kbs.map (fun kb => kb.id)).Nodup →
      ((commitUsedKBs msg kbs).map (fun kb => kb.id)).Nodup) := by
  refine ⟨List.filter_sublist kbs, ?_, ?_⟩
  · intro kb
    rw [commitUsedKBs, List.mem_filter, contains_iff_mem]
  · intro h
    exact List.Nodup.sublist (List.Sublist.map _ (List.filter_sublist kbs)) h

/-- Witness for C1 at the seeded store and the message `@[Product Docs]`. -/
theorem commit_resolution_correct_witness :
    ((commitUsedKBs "@[Product Docs]" initialKBs).map (fun kb => kb.id)).Nodup ∧
    ({ id := "1", title := "Product Docs",
       content := "The product allows users to chat with documents. It supports markdown and exports.",
       tags := ["docs", "manual"] } : KnowledgeBase) ∈
      commitUsedKBs "@[Product Docs]" initialKBs :=
  ⟨(commit_resolution_correct "@[Product Docs]" initialKBs).2.2 (by decide),
   ((commit_resolution_correct "@[Product Docs]" initialKBs).2.1 _).mpr
     ⟨by decide, by decide⟩⟩

/-- C2: with no active query the suggestion list is empty; with active query
`q` it is the store-order subsequence of entries whose lowercased title
contains the lowercased query as a contiguous substring, all entries when
`q = ""`; and the active query of an input ending in an `@`-token with no
space is exactly the text after that last `@`. -/
theorem live_suggestion_correct (kbs : List KnowledgeBase) (input : String) :
    (mentionQueryOf input = none → filteredKBs (mentionQueryOf input) kbs = []) ∧
    (∀ q, mentionQueryOf input = some q →
      (filteredKBs (some q) kbs).Sublist kbs ∧
      (∀ kb, kb ∈ filteredKBs (some q) kbs ↔
        kb ∈ kbs ∧
          ∃ s t, (toLowerStr kb.title).data = s ++ (toLowerStr q).data ++ t) ∧
      (q = "" → filteredKBs (some q) kbs = kbs)) ∧
    (∀ b p, '@' ∉ p.data → ' ' ∉ p.data →
      mentionQueryOf (b ++ "@" ++ p) = some p) := by
  refine ⟨?_, ?_, ?_⟩
  · intro h; rw [h]; rfl
  · intro q _
    refine ⟨List.filter_sublist kbs, ?_, ?_⟩
    · intro kb
      rw [filteredKBs, List.mem_filter, strOccurs_iff]
    · rintro rfl
      rw [filteredKBs]
      apply List.filter_eq_self.mpr
      intro kb _
      rw [show (toLowerStr "").data = [] from rfl]
      exact strOccurs_nil _
  · intro b p hq hs
    exact mentionQueryOf_append b p hq hs

/-- Witness for C2: just-typed `@` (empty query) suggests every seeded entry,
and the query of `"hello @prod"` is `"prod"`. -/
theorem live_suggestion_correct_witness :
    filteredKBs (mentionQueryOf "hello @") initialKBs = initialKBs ∧
    mentionQueryOf ("hello " ++ "@" ++ "prod") = some "prod" := by
  constructor
  · have h := ((live_suggestion_correct initialKBs "hello @").2.1 ""
      (by decide)).2.2 rfl
    rw [show mentionQueryOf "hello @" = some "" from by decide]
    exact h
  · exact (live_suggestion_correct initialKBs "hello @prod").2.2 "hello " "prod"
      (by decide) (by decide)

/-- C3 is refuted: ids come from the ambient clock (`Date.now().toString()`)
with no freshness check, so a create whose clock string equals an id already in
the store — here clock value 1 against the seeded id "1" — reaches a store with
duplicate ids. -/
theorem id_uniqueness_counterexample :
    Reachable (handleSubmit initialKBs 1 "Copy" "Body" "") ∧
    ¬ ((handleSubmit initialKBs 1 "Copy" "Body" "").map
        (fun kb => kb.id)).Nodup :=
  ⟨Reachable.step Reachable.init (KBStep.create initialKBs 1 "Copy" "Body" ""),
   by decide⟩

/-- C3 amended: ids are pairwise distinct in every state reachable when each
create's clock string differs from all ids currently in the store (the
freshness the code assumes of `Date.now()` but does not enforce). -/
theorem id_uniqueness_of_fresh (s : List KnowledgeBase)
    (h : FreshReachable s) : (s.map (fun kb => kb.id)).Nodup := by
  induction h with
  | init => decide
  | create now title content tags _ hfresh ih =>
    unfold handleSubmit
    split
    · exact ih
    · rw [handleCreateKB, List.map_append, List.nodup_append]
      refine ⟨ih, by simp, ?_⟩
      intro a ha hb
      simp only [List.map_cons, List.map_nil, List.mem_singleton] at hb
      subst hb
      exact hfresh ha
  | delete id _ ih =>
    exact List.Nodup.sublist (List.Sublist.map _ (List.filter_sublist _)) ih

/-- Witness for C3 amended: a fresh create at clock value 99 keeps ids
distinct. -/
theorem id_uniqueness_of_fresh_witness :
    ((handleSubmit initialKBs 99 "T" "C" "").map (fun kb => kb.id)).Nodup :=
  id_uniqueness_of_fresh _
    (FreshReachable.create 99 "T" "C" "" FreshReachable.init (by decide))

/-- C4 is refuted: with a response pending (`isTyping = true`), Enter with
nonempty input and no active mention query still starts a send — only the send
button is disabled; neither `handleKeyDown` nor `handleSend` consults the
pending flag. -/
theorem pending_send_counterexample :
    keyDownStartsSend false none "hi" true = true ∧
    sendButtonDisabled "hi" true = true := by decide

/-- C4 amended: while a response is pending the send *button* cannot start a
generation, but the Enter path is independent of the pending flag, so a second
generation can be started from the keyboard. -/
theorem pending_send_amended (input : String) (shift : Bool)
    (mq : Option String) (t : Bool) (h : t = true) :
    sendButtonStartsSend input t = false ∧
    (∀ t2 : Bool, keyDownStartsSend shift mq input t =
      keyDownStartsSend shift mq input t2) := by
  subst h
  refine ⟨?_, fun _ => rfl⟩
  simp [sendButtonStartsSend, sendButtonDisabled]

/-- Witness for C4 amended: button click is inert while pending. -/
theorem pending_send_amended_witness :
    sendButtonStartsSend "hi" true = false :=
  (pending_send_amended "hi" false none true rfl).1

/-- C5 is refuted: for input `"hello @h"` the trimmed text is nonempty and the
suggestion popup is open (active query `"h"`), yet Enter does not send — the
code sends only when `mentionQuery` is null. -/
theorem enter_always_sends_counterexample :
    mentionQueryOf "hello @h" = some "h" ∧
    (trimStr "hello @h" == "") = false ∧
    keyDownStartsSend false (mentionQueryOf "hello @h") "hello @h" false
      = false := by decide

set_option maxRecDepth 2000 in
/-- C5 amended: Enter without Shift sends iff no mention query is active and
the trimmed input is nonempty; whenever the popup is open (a query is active)
Enter does nothing. -/
theorem enter_send_iff (mq : Option String) (input : String) (t : Bool) :
    (keyDownStartsSend false mq input t = true ↔
      mq = none ∧ trimStr input ≠ "") ∧
    (∀ q, mq = some q → keyDownStartsSend false mq input t = false) := by
  constructor
  · cases mq <;> simp [keyDownStartsSend, handleSendFires]
  · rintro q rfl
    simp [keyDownStartsSend]

/-- Witness for C5 amended: Enter sends on plain `"hi"`, not with a query open. -/
theorem enter_send_iff_witness :
    keyDownStartsSend false none "hi" false = true ∧
    keyDownStartsSend false (some "h") "x" false = false :=
  ⟨(enter_send_iff none "hi" false).1.mpr ⟨rfl, by decide⟩,
   (enter_send_iff (some "h") "x" false).2 "h" rfl⟩

/-- C8: with the triggering `@` at character index `|b|` and active query `q`,
selecting an entry rewrites `b ++ "@" ++ q ++ rest` to
`b ++ "@[" ++ title ++ "] " ++ rest`, leaving knowledge bases and messages
untouched. -/
theorem select_rewrites_input (st : ChatState) (kb : KnowledgeBase)
    (b q rest : String)
    (hidx : st.mentionIndex = some b.length)
    (hq : st.mentionQuery = some q)
    (hin : st.input = b ++ "@" ++ q ++ rest) :
    (handleSelectKB st kb).input = b ++ "@[" ++ kb.title ++ "] " ++ rest ∧
    (handleSelectKB st kb).knowledgeBases = st.knowledgeBases ∧
    (handleSelectKB st kb).messages = st.messages := by
  have hdata : st.input.data = b.data ++ '@' :: (q.data ++ rest.data) := by
    rw [hin]
    simp [String.data_append, at_data]
  have htake : st.input.data.take b.length = b.data := by
    rw [hdata]; exact List.take_left' rfl
  have hdrop : st.input.data.drop (b.length + q.length + 1) = rest.data := by
    rw [hdata,
      show b.data ++ '@' :: (q.data ++ rest.data)
        = (b.data ++ '@' :: q.data) ++ rest.data by simp]
    refine List.drop_left' ?_
    rw [List.length_append, List.length_cons]
    have hb : b.length = b.data.length := rfl
    have hq2 : q.length = q.data.length := rfl
    omega
  rw [handleSelectKB, hidx]
  simp only [hq, Option.getD_some]
  refine ⟨?_, by trivial, by trivial⟩
  apply String.ext
  rw [asString_data, htake, hdrop]
  simp [String.data_append]

/-- Witness for C8: the spec scenario — input `"check @prod"`, `@` at index 6,
entry `"Product Docs"` — rewrites to `"check @[Product Docs] "`. -/
theorem select_rewrites_input_witness :
    (handleSelectKB
      { input := "check @prod", isTyping := false, mentionQuery := some "prod",
        mentionIndex := some 6, knowledgeBases := initialKBs, messages := [] }
      { id := "1", title := "Product Docs", content := "", tags := [] }).input
      = "check @[Product Docs] " :=
  ((select_rewrites_input
      { input := "check @prod", isTyping := false, mentionQuery := some "prod",
        mentionIndex := some 6, knowledgeBases := initialKBs, messages := [] }
      { id := "1", title := "Product Docs", content := "", tags := [] }
      "check " "prod" "" rfl rfl (by decide)).1).trans (by decide)

/-- C9: when commit resolution finds no matching entry, the generated response
carries an empty used-context list and a reply text that contains the literal
user text inside quotation marks and the no-knowledge-tagged phrase (the
function is total, so generation always resolves). -/
theorem no_match_response (msg : String) (kbs : List KnowledgeBase)
    (pick : Nat) (h : commitUsedKBs msg kbs = []) :
    (generateResponse msg kbs pick).usedContext = [] ∧
    (∃ s t, (generateResponse msg kbs pick).text.data
        = s ++ ('"' :: (msg.data ++ ['"'])) ++ t) ∧
    (∃ s t, (generateResponse msg kbs pick).text.data
        = s ++ "didn\x27t see any specific knowledge base tagged".data ++ t) := by
  have hresp : generateResponse msg kbs pick =
      { text := "I received your message: \"" ++ msg ++
          "\". I didn\x27t see any specific knowledge base tagged, so I\x27m answering with my general training.",
        usedContext := [] } := by
    simp [generateResponse, h]
  rw [hresp]
  refine ⟨rfl, ?_, ?_⟩
  · refine ⟨"I received your message: ".data,
      ". I didn\x27t see any specific knowledge base tagged, so I\x27m answering with my general training.".data, ?_⟩
    simp only [String.data_append]
    simp [List.append_assoc]
  · refine ⟨"I received your message: \"".data ++ msg.data ++ "\". I ".data,
      ", so I\x27m answering with my general training.".data, ?_⟩
    simp only [String.data_append]
    simp [List.append_assoc]

/-- Witness for C9: sending `"hello"` against the seeded store. -/
theorem no_match_response_witness :
    (generateResponse "hello" initialKBs 0).usedContext = [] :=
  (no_match_response "hello" initialKBs 0 (by decide)).1

/-- C10: create stores title and content exactly as entered (trimming is only
used for the emptiness check), a commit-resolved entry is matched only through
exact title equality with a captured token, and concretely the entry titled
`" Pad "` is missed by `@[Pad]` but matched by `@[ Pad ]`. -/
theorem create_stores_exact (store : List KnowledgeBase) (now : Nat)
    (title content tags : String)
    (ht : trimStr title ≠ "") (hc : trimStr content ≠ "") :
    handleSubmit store now title content tags
      = store ++
        [{ id := toString now, title := title, content := content,
           tags := parseTags tags }] ∧
    (∀ msg kbs kb, kb ∈ commitUsedKBs msg kbs → kb.title ∈ mentionTitles msg) ∧
    (commitUsedKBs "@[Pad]"
        [{ id := "9", title := " Pad ", content := "c", tags := [] }] = [] ∧
      commitUsedKBs "@[ Pad ]"
        [{ id := "9", title := " Pad ", content := "c", tags := [] }]
        = [{ id := "9", title := " Pad ", content := "c", tags := [] }]) := by
  refine ⟨?_, ?_, by decide, by decide⟩
  · rw [handleSubmit, if_neg (not_or.mpr ⟨ht, hc⟩)]
    rfl
  · intro msg kbs kb hkb
    have hmem := (List.mem_filter.mp hkb).2
    exact contains_iff_mem.mp hmem

/-- Witness for C10: creating with title `" Pad "` stores the padded title
verbatim. -/
theorem create_stores_exact_witness :
    handleSubmit [] 9 " Pad " "c" ""
      = [{ id := "9", title := " Pad ", content := "c", tags := [] }] :=
  ((create_stores_exact [] 9 " Pad " "c" "" (by decide) (by decide)).1).trans
    (by decide)

end WebRag
